import Mathlib

set_option maxRecDepth 16384

namespace Winio

/-! ## Definitions -/

/-- Little-endian bytes of a 16-bit value (Go `uint16` truncation included). -/
def u16le (n : Nat) : List Nat := [n % 256, n / 256 % 256]

/-- Little-endian bytes of a 32-bit value (Go `uint32` truncation included). -/
def u32le (n : Nat) : List Nat :=
  [n % 256, n / 256 % 256, n / 65536 % 256, n / 16777216 % 256]

/-- `binary.LittleEndian.Uint16(b[i:i+2])`. -/
def readU16 (b : List Nat) (i : Nat) : Nat :=
  b.getD i 0 + 256 * b.getD (i + 1) 0

/-- `binary.LittleEndian.Uint32(b[i:i+4])`. -/
def readU32 (b : List Nat) (i : Nat) : Nat :=
  b.getD i 0 + 256 * b.getD (i + 1) 0 + 65536 * b.getD (i + 2) 0 +
    16777216 * b.getD (i + 3) 0

/-- Read consecutive little-endian 16-bit units from a byte list, dropping a
trailing odd byte, as `binary.Read` into a `[]uint16` of length `len/2` does. -/
def bytesToU16 : List Nat → List Nat
  | a :: b :: rest => (a + 256 * b) :: bytesToU16 rest
  | _ => []

/-- Little-endian byte stream of a `[]uint16` (as `binary.Write` emits). -/
def u16sToBytes (us : List Nat) : List Nat := us.flatMap u16le

/-- The prefix of a byte list strictly before its first NUL byte (the whole
list when no NUL is present), as the truncation loop in
`decodeLxReparsePointData` computes. -/
def takeUntilNul (l : List Nat) : List Nat := l.takeWhile (fun c => c ≠ 0)

/-- UTF-16 code units of one scalar value, as Go `utf16.Encode` emits them
(a `Char` is never a surrogate or above `0x10FFFF`, so the replacement-rune
branch of the Go code is unreachable). -/
def utf16EncodeChar (c : Char) : List Nat :=
  if c.toNat < 65536 then [c.toNat]
  else [55296 + (c.toNat - 65536) / 1024, 56320 + (c.toNat - 65536) % 1024]

/-- `utf16.Encode` over a whole string. -/
def utf16Encode (s : List Char) : List Nat := s.flatMap utf16EncodeChar

/-- One step of Go `utf16.Decode`: the scalar decoded at the head unit `u`
(with following units `us`) and how many of `us` it additionally consumes. -/
def decodeUnit (u : Nat) (us : List Nat) : Char × Nat :=
  if u < 55296 ∨ 57344 ≤ u then (Char.ofNat u, 0)
  else if u < 56320 then
    match us with
    | v :: _ =>
      if 56320 ≤ v ∧ v < 57344 then
        (Char.ofNat (65536 + (u - 55296) * 1024 + (v - 56320)), 1)
      else ('�', 0)
    | [] => ('�', 0)
  else ('�', 0)

/-- Fuel-indexed driver for `utf16Decode` (structural recursion on the fuel,
which the callers instantiate with the list length). -/
def utf16DecodeAux : Nat → List Nat → List Char
  | _, [] => []
  | 0, _ :: _ => []
  | fuel + 1, u :: us =>
    (decodeUnit u us).1 :: utf16DecodeAux fuel (us.drop (decodeUnit u us).2)

/-- Go `utf16.Decode`. -/
def utf16Decode (l : List Nat) : List Char := utf16DecodeAux l.length l

/-- A UTF-8 continuation byte (`0x80`–`0xBF`). -/
abbrev contB (c : Nat) : Prop := 128 ≤ c ∧ c ≤ 191

/-- Allowed second byte after a three-byte lead `b`, per Go's
`utf8.acceptRanges` (`E0` narrows to `A0`–`BF`, `ED` to `80`–`9F`). -/
abbrev cont3 (b c : Nat) : Prop :=
  (b = 224 ∧ 160 ≤ c ∧ c ≤ 191) ∨ (b = 237 ∧ 128 ≤ c ∧ c ≤ 159) ∨
    (b ≠ 224 ∧ b ≠ 237 ∧ 128 ≤ c ∧ c ≤ 191)

/-- Allowed second byte after a four-byte lead `b`, per Go's
`utf8.acceptRanges` (`F0` narrows to `90`–`BF`, `F4` to `80`–`8F`). -/
abbrev cont4 (b c : Nat) : Prop :=
  (b = 240 ∧ 144 ≤ c ∧ c ≤ 191) ∨ (b = 244 ∧ 128 ≤ c ∧ c ≤ 143) ∨
    (b ≠ 240 ∧ b ≠ 244 ∧ 128 ≤ c ∧ c ≤ 191)

/-- Four-byte decoding step (`e` is the final byte). -/
def rune4 (b c d e : Nat) : Char × Nat :=
  if 240 ≤ b ∧ b ≤ 244 ∧ cont4 b c ∧ contB d ∧ contB e then
    (Char.ofNat ((b - 240) * 262144 + (c - 128) * 4096 + (d - 128) * 64 +
      (e - 128)), 3)
  else ('�', 0)

/-- Three-byte (falling through to four-byte) decoding step. -/
def rune3 : Nat → Nat → Nat → List Nat → Char × Nat
  | b, c, d, [] =>
    if 224 ≤ b ∧ b ≤ 239 ∧ cont3 b c ∧ contB d then
      (Char.ofNat ((b - 224) * 4096 + (c - 128) * 64 + (d - 128)), 2)
    else ('�', 0)
  | b, c, d, e :: _ =>
    if 224 ≤ b ∧ b ≤ 239 ∧ cont3 b c ∧ contB d then
      (Char.ofNat ((b - 224) * 4096 + (c - 128) * 64 + (d - 128)), 2)
    else rune4 b c d e

/-- Two-byte (falling through to longer) decoding step. -/
def rune2 : Nat → Nat → List Nat → Char × Nat
  | b, c, [] =>
    if 194 ≤ b ∧ b ≤ 223 ∧ contB c then
      (Char.ofNat ((b - 192) * 64 + (c - 128)), 1)
    else ('�', 0)
  | b, c, d :: bs3 =>
    if 194 ≤ b ∧ b ≤ 223 ∧ contB c then
      (Char.ofNat ((b - 192) * 64 + (c - 128)), 1)
    else rune3 b c d bs3

/-- One step of Go's UTF-8 decoding (`utf8.DecodeRune` semantics): the scalar
decoded at head byte `b` (with following bytes `bs`) and how many of `bs` it
additionally consumes.  Any malformed, truncated, overlong or surrogate
sequence yields `U+FFFD` and consumes only the head byte. -/
def decodeRune : Nat → List Nat → Char × Nat
  | b, [] => if b < 128 then (Char.ofNat b, 0) else ('�', 0)
  | b, c :: bs2 => if b < 128 then (Char.ofNat b, 0) else rune2 b c bs2

/-- Fuel-indexed driver for `utf8Decode` (structural recursion on the fuel,
which the callers instantiate with the list length). -/
def utf8DecodeAux : Nat → List Nat → List Char
  | _, [] => []
  | 0, _ :: _ => []
  | fuel + 1, b :: bs =>
    (decodeRune b bs).1 :: utf8DecodeAux fuel (bs.drop (decodeRune b bs).2)

/-- Decode a byte list to text exactly as ranging over a Go string does. -/
def utf8Decode (l : List Nat) : List Char := utf8DecodeAux l.length l

/-- UTF-8 bytes of one scalar value (Go `utf8.EncodeRune` on a valid rune). -/
def utf8EncodeChar (c : Char) : List Nat :=
  let n := c.toNat
  if n < 128 then [n]
  else if n < 2048 then [192 + n / 64, 128 + n % 64]
  else if n < 65536 then [224 + n / 4096, 128 + n / 64 % 64, 128 + n % 64]
  else [240 + n / 262144, 128 + n / 4096 % 64, 128 + n / 64 % 64, 128 + n % 64]

/-- The UTF-8 byte string of a text value (Go `[]byte(s)`). -/
def utf8Encode (s : List Char) : List Nat := s.flatMap utf8EncodeChar

/-- `ReparsePoint` describes a Win32 symlink, mount point, or LX symlink
(`IsLxSymlink` is the spec's `isAlternateSymlink`). -/
structure ReparsePoint where
  target : List Char
  isMountPoint : Bool
  isLxSymlink : Bool
deriving DecidableEq, Repr

/-- Failure outcomes of decoding.  `unsupportedReparsePoint` models
`UnsupportedReparsePointError` (carrying the offending tag),
`lxBufferTooShort` models `errors.New("LX symlink buffer too short")`, and
`sliceOutOfRange` models the Go runtime panic raised by an out-of-range
slice expression (capacity taken to equal length). -/
inductive DecodeError where
  | unsupportedReparsePoint (tag : Nat)
  | lxBufferTooShort
  | sliceOutOfRange
deriving DecidableEq, Repr

instance {ε α : Type} [DecidableEq ε] [DecidableEq α] :
    DecidableEq (Except ε α) := fun x y =>
  match x, y with
  | .ok a, .ok b =>
    if h : a = b then .isTrue (by rw [h]) else
      .isFalse (by intro he; cases he; exact h rfl)
  | .error a, .error b =>
    if h : a = b then .isTrue (by rw [h]) else
      .isFalse (by intro he; cases he; exact h rfl)
  | .ok _, .error _ => .isFalse (by intro he; cases he)
  | .error _, .ok _ => .isFalse (by intro he; cases he)

/-- `reparseTagMountPoint`. -/
def reparseTagMountPoint : Nat := 0xA0000003

/-- `reparseTagSymlink`. -/
def reparseTagSymlink : Nat := 0xA000000C

/-- `reparseTagLxSymlink`. -/
def reparseTagLxSymlink : Nat := 0xA000001D

/-- `lxSymlinkVersion`. -/
def lxSymlinkVersion : Nat := 2

/-- `decodeWindowsReparsePointData`: the mount-point / standard-symlink
branch, applied to the buffer from byte 8 onward.  `nameOffset` is computed
in `uint16` arithmetic (`8 + PrintNameOffset`, plus 4 for a symlink), and
`b[nameOffset : nameOffset+nameLength]` panics unless
`nameOffset ≤ hi ≤ len(b)` where `hi` also wraps mod `2^16`. -/
def decodeWindowsReparsePointData (b : List Nat) (isMountPoint : Bool) :
    Except DecodeError ReparsePoint :=
  if b.length < 8 then .error .sliceOutOfRange
  else
    let nameOffset :=
      ((8 + readU16 b 4) % 65536 + (if isMountPoint then 0 else 4)) % 65536
    let nameLength := readU16 b 6
    let hi := (nameOffset + nameLength) % 65536
    if nameOffset ≤ hi ∧ hi ≤ b.length then
      .ok ⟨utf16Decode (bytesToU16 ((b.drop nameOffset).take (hi - nameOffset))),
        isMountPoint, false⟩
    else .error .sliceOutOfRange

/-- `decodeLxReparsePointData`: the LX-symlink branch, applied to the buffer
from byte 8 onward. -/
def decodeLxReparsePointData (b : List Nat) : Except DecodeError ReparsePoint :=
  if b.length < 4 then .error .lxBufferTooShort
  else .ok ⟨utf8Decode (takeUntilNul (b.drop 4)), false, true⟩

/-- `DecodeReparsePointData`: tag dispatch. -/
def DecodeReparsePointData (tag : Nat) (b : List Nat) :
    Except DecodeError ReparsePoint :=
  if tag = reparseTagMountPoint then decodeWindowsReparsePointData b true
  else if tag = reparseTagSymlink then decodeWindowsReparsePointData b false
  else if tag = reparseTagLxSymlink then decodeLxReparsePointData b
  else .error (.unsupportedReparsePoint tag)

/-- `DecodeReparsePoint`: reads the tag from `b[0:4]` and dispatches on the
payload `b[8:]`; both slice expressions panic when `len(b) < 8`
(capacity = length). -/
def DecodeReparsePoint (b : List Nat) : Except DecodeError ReparsePoint :=
  if b.length < 8 then .error .sliceOutOfRange
  else DecodeReparsePointData (readU32 b 0) (b.drop 8)

/-- `isDriveLetter`. -/
def isDriveLetter (c : Char) : Bool :=
  ('a' ≤ c && c ≤ 'z') || ('A' ≤ c && c ≤ 'Z')

/-- The target starts with a drive letter followed by `:`
(`len(rp.Target) >= 2 && isDriveLetter(rp.Target[0]) && rp.Target[1] == ':'`). -/
def hasDriveStart : List Char → Bool
  | a :: b :: _ => isDriveLetter a && b == ':'
  | _ => false

/-- The NT-target computation of `encodeWindowsReparsePoint`: the rewritten
path together with the `relative` flag. -/
def ntTargetRel (t : List Char) : List Char × Bool :=
  if (['\\', '\\', '?', '\\']).isPrefixOf t then
    (['\\', '?', '?', '\\'] ++ t.drop 4, false)
  else if (['\\', '\\']).isPrefixOf t then
    (['\\', '?', '?', '\\', 'U', 'N', 'C', '\\'] ++ t.drop 2, false)
  else if hasDriveStart t then (['\\', '?', '?', '\\'] ++ t, false)
  else (t, true)

/-- `encodeWindowsReparsePoint`.  `unsafe.Sizeof(reparseDataBuffer{}) = 16`,
so `size` starts at 8; `uint16` header fields truncate mod `2^16` (inside
`u16le`). -/
def encodeWindowsReparsePoint (rp : ReparsePoint) : List Nat :=
  let nt := (ntTargetRel rp.target).1
  let relative := (ntTargetRel rp.target).2
  let target16 := utf16Encode (rp.target ++ ['\x00'])
  let ntTarget16 := utf16Encode (nt ++ ['\x00'])
  let size := 8 + ntTarget16.length * 2 + target16.length * 2 +
    (if rp.isMountPoint then 0 else 4)
  let tag := if rp.isMountPoint then reparseTagMountPoint else reparseTagSymlink
  u32le tag ++ u16le size ++ u16le 0 ++
    u16le 0 ++ u16le ((ntTarget16.length - 1) * 2) ++
    u16le (ntTarget16.length * 2) ++ u16le ((target16.length - 1) * 2) ++
    (if rp.isMountPoint then [] else u32le (if relative then 1 else 0)) ++
    u16sToBytes ntTarget16 ++ u16sToBytes target16

/-- `encodeLxReparsePoint`. -/
def encodeLxReparsePoint (rp : ReparsePoint) : List Nat :=
  let targetBytes := utf8Encode rp.target
  let dataLength := 4 + targetBytes.length
  u32le reparseTagLxSymlink ++ u16le dataLength ++ u16le 0 ++
    u32le lxSymlinkVersion ++ targetBytes

/-- `EncodeReparsePoint` on a non-nil value (a nil pointer encodes to a nil
buffer before this point is reached). -/
def EncodeReparsePoint (rp : ReparsePoint) : List Nat :=
  if rp.isLxSymlink then encodeLxReparsePoint rp else encodeWindowsReparsePoint rp

/-- The UTF-16 code units, with trailing NUL, of the original (print) name. -/
def t16 (t : List Char) : List Nat := utf16Encode (t ++ ['\x00'])

/-- The UTF-16 code units, with trailing NUL, of the NT (substitute) name. -/
def nt16 (t : List Char) : List Nat := utf16Encode ((ntTargetRel t).1 ++ ['\x00'])

/-- The NT-target rewriting as the spec's words describe it (§4 step 1), for
comparison with the encoder's computation. -/
def specNtTarget (t : List Char) : List Char :=
  if (['\\', '\\', '?', '\\']).isPrefixOf t then ['\\', '?', '?', '\\'] ++ t.drop 4
  else if (['\\', '\\']).isPrefixOf t then
    ['\\', '?', '?', '\\', 'U', 'N', 'C', '\\'] ++ t.drop 2
  else if hasDriveStart t then ['\\', '?', '?', '\\'] ++ t
  else t

/-- Whether the spec's words classify the path as relative: exactly when none
of the three rewriting cases applies. -/
def specRelative (t : List Char) : Bool :=
  !((['\\', '\\', '?', '\\']).isPrefixOf t || (['\\', '\\']).isPrefixOf t ||
    hasDriveStart t)

/-- The substitute-name text of a payload as the spec's words describe it
(C2): the UTF-16 text at byte offset `8 + substituteNameOffset` (plus 4 for a
standard symlink) of length `substituteNameLength`, the two fields being read
at payload offsets 0 and 2. -/
def specSubstituteName (b : List Nat) (isMountPoint : Bool) : List Char :=
  utf16Decode (bytesToU16
    ((b.drop (8 + readU16 b 0 + (if isMountPoint then 0 else 4))).take
      (readU16 b 2)))

/-! ## Theorems -/

theorem u16le_length (n : Nat) : (u16le n).length = 2 := rfl

theorem u32le_length (n : Nat) : (u32le n).length = 4 := rfl

theorem u16sToBytes_length (us : List Nat) :
    (u16sToBytes us).length = 2 * us.length := by
  induction us with
  | nil => rfl
  | cons u us ih => simp [u16sToBytes, u16le] at ih ⊢; omega

theorem u16sToBytes_append (a b : List Nat) :
    u16sToBytes (a ++ b) = u16sToBytes a ++ u16sToBytes b := by
  simp [u16sToBytes]

theorem readU16_append_right (l1 l2 : List Nat) (i : Nat) (h : l1.length ≤ i) :
    readU16 (l1 ++ l2) i = readU16 l2 (i - l1.length) := by
  unfold readU16
  rw [List.getD_append_right _ _ _ _ h, List.getD_append_right _ _ _ _ (by omega)]
  have : i + 1 - l1.length = i - l1.length + 1 := by omega
  rw [this]

theorem readU16_u16le (x : Nat) (r : List Nat) :
    readU16 (u16le x ++ r) 0 = x % 65536 := by
  simp [readU16, u16le, List.getD]
  omega

theorem readU32_u32le (x : Nat) (r : List Nat) :
    readU32 (u32le x ++ r) 0 = x % 4294967296 := by
  simp [readU32, u32le, List.getD]
  omega

theorem bytesToU16_u16sToBytes (us : List Nat) (h : ∀ u ∈ us, u < 65536) :
    bytesToU16 (u16sToBytes us) = us := by
  induction us with
  | nil => rfl
  | cons u us ih =>
    have hu : u < 65536 := h u (List.mem_cons_self u us)
    have : u % 256 + 256 * (u / 256 % 256) = u := by omega
    simp only [u16sToBytes, List.flatMap_cons, u16le, List.cons_append,
      List.nil_append, bytesToU16, this]
    exact congrArg _ (ih fun v hv => h v (List.mem_cons_of_mem _ hv))

theorem takeUntilNul_eq_self (l : List Nat) (h : ∀ x ∈ l, x ≠ 0) :
    takeUntilNul l = l := by
  induction l with
  | nil => rfl
  | cons a l ih =>
    have ha : a ≠ 0 := h a (List.mem_cons_self a l)
    simp only [takeUntilNul, List.takeWhile_cons, decide_eq_true ha]
    exact congrArg _ (ih fun x hx => h x (List.mem_cons_of_mem _ hx))

theorem takeUntilNul_append_left (l1 l2 : List Nat) (h : ∀ x ∈ l1, x ≠ 0) :
    takeUntilNul (l1 ++ l2) = l1 ++ takeUntilNul l2 := by
  induction l1 with
  | nil => simp
  | cons a l ih =>
    have ha : a ≠ 0 := h a (List.mem_cons_self a l)
    simp only [List.cons_append, takeUntilNul, List.takeWhile_cons,
      decide_eq_true ha]
    exact congrArg _ (ih fun x hx => h x (List.mem_cons_of_mem _ hx))

theorem takeUntilNul_cons_nul (l : List Nat) : takeUntilNul (0 :: l) = [] := by
  simp [takeUntilNul]

theorem mem_takeUntilNul_ne_zero (l : List Nat) (x : Nat)
    (h : x ∈ takeUntilNul l) : x ≠ 0 := by
  have := List.mem_takeWhile_imp h
  simpa using this

/-- `c.toNat` is a valid Unicode scalar value. -/
theorem char_isValid (c : Char) : c.toNat.isValidChar := c.valid

theorem toNat_ofNat_valid (n : Nat) (h : n.isValidChar) :
    (Char.ofNat n).toNat = n := by
  rw [Char.ofNat, dif_pos h]
  rfl

theorem utf16DecodeAux_cons (f u : Nat) (us : List Nat) :
    utf16DecodeAux (f + 1) (u :: us) =
      (decodeUnit u us).1 ::
        utf16DecodeAux f (us.drop (decodeUnit u us).2) := rfl

theorem utf16DecodeAux_irrel (f1 : Nat) : ∀ (f2 : Nat) (l : List Nat),
    l.length ≤ f1 → l.length ≤ f2 → utf16DecodeAux f1 l = utf16DecodeAux f2 l := by
  induction f1 with
  | zero =>
    intro f2 l h1 _
    cases l with
    | nil => cases f2 <;> rfl
    | cons u us => simp at h1
  | succ f ih =>
    intro f2 l h1 h2
    cases l with
    | nil => cases f2 <;> rfl
    | cons u us =>
      cases f2 with
      | zero => simp at h2
      | succ g =>
        rw [utf16DecodeAux_cons, utf16DecodeAux_cons]
        refine congrArg _ (ih g _ ?_ ?_) <;>
          simp only [List.length_drop, List.length_cons] at h1 h2 ⊢ <;> omega

theorem utf16Decode_nil : utf16Decode [] = [] := rfl

theorem utf16Decode_cons (u : Nat) (us : List Nat) :
    utf16Decode (u :: us) =
      (decodeUnit u us).1 :: utf16Decode (us.drop (decodeUnit u us).2) := by
  show utf16DecodeAux (us.length + 1) (u :: us) = _
  rw [utf16DecodeAux_cons]
  exact congrArg _ (utf16DecodeAux_irrel _ _ _
    (by simp only [List.length_drop]; omega) (le_refl _))

theorem utf16Encode_append (s t : List Char) :
    utf16Encode (s ++ t) = utf16Encode s ++ utf16Encode t := by
  simp [utf16Encode]

theorem utf16EncodeChar_nul : utf16EncodeChar '\x00' = [0] := rfl

theorem utf16EncodeChar_lt (c : Char) : ∀ u ∈ utf16EncodeChar c, u < 65536 := by
  intro u hu
  have hv := char_isValid c
  unfold utf16EncodeChar at hu
  by_cases h : c.toNat < 65536
  · rw [if_pos h] at hu
    simp at hu
    omega
  · rw [if_neg h] at hu
    have hlt : c.toNat < 1114112 := by
      rcases hv with h1 | ⟨_, h2⟩ <;> omega
    simp at hu
    rcases hu with h' | h' <;> omega

theorem utf16Encode_lt (s : List Char) : ∀ u ∈ utf16Encode s, u < 65536 := by
  intro u hu
  simp only [utf16Encode, List.mem_flatMap] at hu
  obtain ⟨c, _, hc⟩ := hu
  exact utf16EncodeChar_lt c u hc

theorem utf16Decode_encodeChar (c : Char) (rest : List Nat) :
    utf16Decode (utf16EncodeChar c ++ rest) = c :: utf16Decode rest := by
  have hv := char_isValid c
  by_cases h : c.toNat < 65536
  · have henc : utf16EncodeChar c = [c.toNat] := if_pos h
    rw [henc]
    have hd : decodeUnit c.toNat rest = (c, 0) := by
      unfold decodeUnit
      rw [if_pos]
      · rw [Char.ofNat_toNat]
      · rcases hv with h1 | ⟨h2, _⟩
        · exact Or.inl h1
        · exact Or.inr (by omega)
    simp only [List.cons_append, List.nil_append]
    rw [utf16Decode_cons, hd]
    simp
  · have hlt : c.toNat < 1114112 := by
      rcases hv with h1 | ⟨_, h2⟩ <;> omega
    have hge : 65536 ≤ c.toNat := by omega
    have henc : utf16EncodeChar c =
        [55296 + (c.toNat - 65536) / 1024, 56320 + (c.toNat - 65536) % 1024] :=
      if_neg h
    rw [henc]
    set hi := 55296 + (c.toNat - 65536) / 1024 with hhi
    set lo := 56320 + (c.toNat - 65536) % 1024 with hlo
    have hdiv : (c.toNat - 65536) / 1024 < 1024 := by omega
    have hmod : (c.toNat - 65536) % 1024 < 1024 := Nat.mod_lt _ (by omega)
    have hd : decodeUnit hi (lo :: rest) = (c, 1) := by
      unfold decodeUnit
      rw [if_neg (by omega), if_pos (by omega)]
      show (if 56320 ≤ lo ∧ lo < 57344 then
          (Char.ofNat (65536 + (hi - 55296) * 1024 + (lo - 56320)), 1)
        else ('�', 0)) = (c, 1)
      rw [if_pos ⟨by omega, by omega⟩]
      have hval : 65536 + (hi - 55296) * 1024 + (lo - 56320) = c.toNat := by
        rw [hhi, hlo]
        have := Nat.div_add_mod (c.toNat - 65536) 1024
        omega
      rw [hval, Char.ofNat_toNat]
    simp only [List.cons_append, List.nil_append]
    rw [utf16Decode_cons, hd]
    simp

/-- Decoding inverts encoding on every string of scalar values. -/
theorem utf16Decode_encode (s : List Char) :
    utf16Decode (utf16Encode s) = s := by
  induction s with
  | nil => rfl
  | cons c s ih =>
    have : utf16Encode (c :: s) = utf16EncodeChar c ++ utf16Encode s := by
      simp [utf16Encode]
    rw [this, utf16Decode_encodeChar, ih]

theorem utf16Encode_length_bmp (s : List Char)
    (h : ∀ c ∈ s, c.toNat < 65536) :
    (utf16Encode s).length = s.length := by
  induction s with
  | nil => rfl
  | cons c s ih =>
    have hc : c.toNat < 65536 := h c (List.mem_cons_self c s)
    have henc : utf16EncodeChar c = [c.toNat] := if_pos hc
    simp only [utf16Encode, List.flatMap_cons] at ih ⊢
    rw [henc]
    simp only [List.length_append, List.length_cons, List.length_nil,
      List.nil_append]
    rw [ih fun x hx => h x (List.mem_cons_of_mem _ hx)]
    omega

theorem utf16Encode_replicate (n : Nat) (c : Char) (h : c.toNat < 65536) :
    utf16Encode (List.replicate n c) = List.replicate n c.toNat := by
  induction n with
  | zero => rfl
  | succ n ih =>
    have henc : utf16EncodeChar c = [c.toNat] := if_pos h
    simp only [List.replicate_succ, utf16Encode, List.flatMap_cons] at ih ⊢
    rw [henc, ih]
    rfl

theorem utf8DecodeAux_cons (f b : Nat) (bs : List Nat) :
    utf8DecodeAux (f + 1) (b :: bs) =
      (decodeRune b bs).1 ::
        utf8DecodeAux f (bs.drop (decodeRune b bs).2) := rfl

theorem utf8DecodeAux_irrel (f1 : Nat) : ∀ (f2 : Nat) (l : List Nat),
    l.length ≤ f1 → l.length ≤ f2 → utf8DecodeAux f1 l = utf8DecodeAux f2 l := by
  induction f1 with
  | zero =>
    intro f2 l h1 _
    cases l with
    | nil => cases f2 <;> rfl
    | cons b bs => simp at h1
  | succ f ih =>
    intro f2 l h1 h2
    cases l with
    | nil => cases f2 <;> rfl
    | cons b bs =>
      cases f2 with
      | zero => simp at h2
      | succ g =>
        rw [utf8DecodeAux_cons, utf8DecodeAux_cons]
        refine congrArg _ (ih g _ ?_ ?_) <;>
          simp only [List.length_drop, List.length_cons] at h1 h2 ⊢ <;> omega

theorem utf8Decode_nil : utf8Decode [] = [] := rfl

theorem utf8Decode_cons (b : Nat) (bs : List Nat) :
    utf8Decode (b :: bs) =
      (decodeRune b bs).1 :: utf8Decode (bs.drop (decodeRune b bs).2) := by
  show utf8DecodeAux (bs.length + 1) (b :: bs) = _
  rw [utf8DecodeAux_cons]
  exact congrArg _ (utf8DecodeAux_irrel _ _ _
    (by simp only [List.length_drop]; omega) (le_refl _))

theorem utf8Encode_append (s t : List Char) :
    utf8Encode (s ++ t) = utf8Encode s ++ utf8Encode t := by
  simp [utf8Encode]

theorem rune2_nil (b c : Nat) :
    rune2 b c [] = if 194 ≤ b ∧ b ≤ 223 ∧ contB c then
      (Char.ofNat ((b - 192) * 64 + (c - 128)), 1)
    else ('�', 0) := rfl

theorem rune2_cons (b c d : Nat) (bs3 : List Nat) :
    rune2 b c (d :: bs3) = if 194 ≤ b ∧ b ≤ 223 ∧ contB c then
      (Char.ofNat ((b - 192) * 64 + (c - 128)), 1)
    else rune3 b c d bs3 := rfl

theorem rune3_nil (b c d : Nat) :
    rune3 b c d [] = if 224 ≤ b ∧ b ≤ 239 ∧ cont3 b c ∧ contB d then
      (Char.ofNat ((b - 224) * 4096 + (c - 128) * 64 + (d - 128)), 2)
    else ('�', 0) := rfl

theorem rune3_cons (b c d e : Nat) (bs4 : List Nat) :
    rune3 b c d (e :: bs4) = if 224 ≤ b ∧ b ≤ 239 ∧ cont3 b c ∧ contB d then
      (Char.ofNat ((b - 224) * 4096 + (c - 128) * 64 + (d - 128)), 2)
    else rune4 b c d e := rfl

theorem decodeRune_nil (b : Nat) :
    decodeRune b [] = if b < 128 then (Char.ofNat b, 0) else ('�', 0) := rfl

theorem decodeRune_cons (b c : Nat) (bs2 : List Nat) :
    decodeRune b (c :: bs2) =
      if b < 128 then (Char.ofNat b, 0) else rune2 b c bs2 := rfl

theorem decodeRune_ascii (b : Nat) (bs : List Nat) (h : b < 128) :
    decodeRune b bs = (Char.ofNat b, 0) := by
  cases bs <;> simp [decodeRune_nil, decodeRune_cons, h]

theorem utf8Decode_encodeChar (c0 : Char) (rest : List Nat) :
    utf8Decode (utf8EncodeChar c0 ++ rest) = c0 :: utf8Decode rest := by
  have hv := char_isValid c0
  have hlt : c0.toNat < 1114112 := by
    rcases hv with h1 | ⟨_, h2⟩ <;> omega
  have hs : c0.toNat < 55296 ∨ 57343 < c0.toNat := by
    rcases hv with h1 | ⟨h2, _⟩ <;> omega
  set n := c0.toNat with hn
  by_cases h1 : n < 128
  · have henc : utf8EncodeChar c0 = [n] := by
      simp [utf8EncodeChar, ← hn, h1]
    rw [henc, List.cons_append, List.nil_append, utf8Decode_cons,
      decodeRune_ascii _ _ h1, Char.ofNat_toNat]
    simp
  · by_cases h2 : n < 2048
    · have henc : utf8EncodeChar c0 = [192 + n / 64, 128 + n % 64] := by
        simp [utf8EncodeChar, ← hn, h1, h2]
      rw [henc]
      simp only [List.cons_append, List.nil_append]
      rw [utf8Decode_cons]
      have hr : decodeRune (192 + n / 64) ((128 + n % 64) :: rest) =
          (c0, 1) := by
        rw [decodeRune_cons, if_neg (by omega : ¬192 + n / 64 < 128)]
        cases rest with
        | nil =>
          rw [rune2_nil, if_pos ⟨by omega, by omega, by omega, by omega⟩]
          rw [show (192 + n / 64 - 192) * 64 + (128 + n % 64 - 128) = n by
            omega, hn, Char.ofNat_toNat]
        | cons x xs =>
          rw [rune2_cons, if_pos ⟨by omega, by omega, by omega, by omega⟩]
          rw [show (192 + n / 64 - 192) * 64 + (128 + n % 64 - 128) = n by
            omega, hn, Char.ofNat_toNat]
      rw [hr]
      simp
    · by_cases h3 : n < 65536
      · have henc : utf8EncodeChar c0 =
            [224 + n / 4096, 128 + n / 64 % 64, 128 + n % 64] := by
          simp [utf8EncodeChar, ← hn, h1, h2, h3]
        rw [henc]
        simp only [List.cons_append, List.nil_append]
        rw [utf8Decode_cons]
        have hc3 : cont3 (224 + n / 4096) (128 + n / 64 % 64) := by
          unfold cont3
          omega
        have hval : (224 + n / 4096 - 224) * 4096 +
            (128 + n / 64 % 64 - 128) * 64 + (128 + n % 64 - 128) = n := by
          omega
        have hr : decodeRune (224 + n / 4096)
            ((128 + n / 64 % 64) :: (128 + n % 64) :: rest) = (c0, 2) := by
          rw [decodeRune_cons, if_neg (by omega : ¬224 + n / 4096 < 128)]
          rw [rune2_cons, if_neg (by rintro ⟨_, h, _⟩; omega)]
          cases rest with
          | nil =>
            rw [rune3_nil, if_pos ⟨by omega, by omega, hc3, by omega, by omega⟩]
            rw [hval, hn, Char.ofNat_toNat]
          | cons x xs =>
            rw [rune3_cons,
              if_pos ⟨by omega, by omega, hc3, by omega, by omega⟩]
            rw [hval, hn, Char.ofNat_toNat]
        rw [hr]
        simp
      · have henc : utf8EncodeChar c0 =
            [240 + n / 262144, 128 + n / 4096 % 64, 128 + n / 64 % 64,
              128 + n % 64] := by
          simp [utf8EncodeChar, ← hn, h1, h2, h3]
        rw [henc]
        simp only [List.cons_append, List.nil_append]
        rw [utf8Decode_cons]
        have hc4 : cont4 (240 + n / 262144) (128 + n / 4096 % 64) := by
          unfold cont4
          omega
        have hval : (240 + n / 262144 - 240) * 262144 +
            (128 + n / 4096 % 64 - 128) * 4096 +
            (128 + n / 64 % 64 - 128) * 64 + (128 + n % 64 - 128) = n := by
          omega
        have hr : decodeRune (240 + n / 262144)
            ((128 + n / 4096 % 64) :: (128 + n / 64 % 64) ::
              (128 + n % 64) :: rest) = (c0, 3) := by
          rw [decodeRune_cons, if_neg (by omega : ¬240 + n / 262144 < 128)]
          rw [rune2_cons, if_neg (by rintro ⟨_, h, _⟩; omega)]
          rw [rune3_cons, if_neg (by rintro ⟨_, h, _⟩; omega)]
          unfold rune4
          rw [if_pos ⟨by omega, by omega, hc4, ⟨by omega, by omega⟩,
            by omega, by omega⟩]
          rw [hval, hn, Char.ofNat_toNat]
        rw [hr]
        simp

/-- Decoding inverts encoding on every string of scalar values. -/
theorem utf8Decode_encode (s : List Char) : utf8Decode (utf8Encode s) = s := by
  induction s with
  | nil => rfl
  | cons c s ih =>
    have : utf8Encode (c :: s) = utf8EncodeChar c ++ utf8Encode s := by
      simp [utf8Encode]
    rw [this, utf8Decode_encodeChar, ih]

theorem utf8EncodeChar_ne_zero (c : Char) (hc : c ≠ '\x00') :
    ∀ x ∈ utf8EncodeChar c, x ≠ 0 := by
  have hn : c.toNat ≠ 0 := by
    intro h0
    apply hc
    have := Char.ofNat_toNat c
    rw [h0] at this
    exact this.symm.trans rfl
  intro x hx
  unfold utf8EncodeChar at hx
  by_cases h1 : c.toNat < 128
  · rw [if_pos h1] at hx
    simp at hx
    omega
  · rw [if_neg h1] at hx
    by_cases h2 : c.toNat < 2048
    · rw [if_pos h2] at hx
      simp at hx
      rcases hx with h | h <;> omega
    · rw [if_neg h2] at hx
      by_cases h3 : c.toNat < 65536
      · rw [if_pos h3] at hx
        simp at hx
        rcases hx with h | h | h <;> omega
      · rw [if_neg h3] at hx
        simp at hx
        rcases hx with h | h | h | h <;> omega

theorem utf8Encode_ne_zero (s : List Char) (hs : ∀ c ∈ s, c ≠ '\x00') :
    ∀ x ∈ utf8Encode s, x ≠ 0 := by
  intro x hx
  simp only [utf8Encode, List.mem_flatMap] at hx
  obtain ⟨c, hc, hxc⟩ := hx
  exact utf8EncodeChar_ne_zero c (hs c hc) x hxc

theorem charOfNat_ne_nul (n : Nat) (hn : n ≠ 0) (hv : n.isValidChar) :
    Char.ofNat n ≠ '\x00' := by
  intro he
  have ht := toNat_ofNat_valid n hv
  rw [he] at ht
  exact hn ht.symm

theorem rune4_fst_ne_nul (b c d e : Nat) : (rune4 b c d e).1 ≠ '\x00' := by
  unfold rune4
  split
  case isTrue h =>
    obtain ⟨hb1, hb2, hc4, hd, he2⟩ := h
    apply charOfNat_ne_nul
    · rcases hc4 with ⟨h1, h2, h3⟩ | ⟨h1, h2, h3⟩ | ⟨h1, h2, h3, h4⟩ <;> omega
    · refine Or.inr ⟨?_, ?_⟩ <;>
        rcases hc4 with ⟨h1, h2, h3⟩ | ⟨h1, h2, h3⟩ | ⟨h1, h2, h3, h4⟩ <;>
        omega
  case isFalse => decide

theorem rune3_fst_ne_nul (b c d : Nat) (bs3 : List Nat) :
    (rune3 b c d bs3).1 ≠ '\x00' := by
  have main : ∀ h : 224 ≤ b ∧ b ≤ 239 ∧ cont3 b c ∧ contB d,
      Char.ofNat ((b - 224) * 4096 + (c - 128) * 64 + (d - 128)) ≠ '\x00' := by
    rintro ⟨hb1, hb2, hc3, hd⟩
    apply charOfNat_ne_nul
    · rcases hc3 with ⟨h1, h2, h3⟩ | ⟨h1, h2, h3⟩ | ⟨h1, h2, h3, h4⟩ <;> omega
    · rcases hc3 with ⟨h1, h2, h3⟩ | ⟨h1, h2, h3⟩ | ⟨h1, h2, h3, h4⟩
      · exact Or.inl (by omega)
      · exact Or.inl (by omega)
      · rcases Nat.lt_or_ge ((b - 224) * 4096 + (c - 128) * 64 + (d - 128))
          55296 with hlt | hge
        · exact Or.inl hlt
        · exact Or.inr ⟨by omega, by omega⟩
  cases bs3 with
  | nil =>
    rw [rune3_nil]
    split
    case isTrue h => exact main h
    case isFalse => decide
  | cons e bs4 =>
    rw [rune3_cons]
    split
    case isTrue h => exact main h
    case isFalse => exact rune4_fst_ne_nul b c d e

theorem rune2_fst_ne_nul (b c : Nat) (bs2 : List Nat) :
    (rune2 b c bs2).1 ≠ '\x00' := by
  have main : ∀ h : 194 ≤ b ∧ b ≤ 223 ∧ contB c,
      Char.ofNat ((b - 192) * 64 + (c - 128)) ≠ '\x00' := by
    rintro ⟨hb1, hb2, hc⟩
    exact charOfNat_ne_nul _ (by omega) (Or.inl (by omega))
  cases bs2 with
  | nil =>
    rw [rune2_nil]
    split
    case isTrue h => exact main h
    case isFalse => decide
  | cons d bs3 =>
    rw [rune2_cons]
    split
    case isTrue h => exact main h
    case isFalse => exact rune3_fst_ne_nul b c d bs3

theorem decodeRune_fst_ne_nul (b : Nat) (bs : List Nat) (hb : b ≠ 0) :
    (decodeRune b bs).1 ≠ '\x00' := by
  have main : ∀ _ : b < 128, Char.ofNat b ≠ '\x00' := fun h =>
    charOfNat_ne_nul b hb (Or.inl (by omega))
  cases bs with
  | nil =>
    rw [decodeRune_nil]
    split
    case isTrue h => exact main h
    case isFalse => decide
  | cons c bs2 =>
    rw [decodeRune_cons]
    split
    case isTrue h => exact main h
    case isFalse => exact rune2_fst_ne_nul b c bs2

/-- Decoding a NUL-free byte list never produces a NUL scalar. -/
theorem utf8Decode_nul_free (bs : List Nat) (h : ∀ x ∈ bs, x ≠ 0) :
    '\x00' ∉ utf8Decode bs := by
  generalize hn : bs.length = n
  induction n using Nat.strong_induction_on generalizing bs with
  | _ n ih =>
    cases bs with
    | nil => simp [utf8Decode_nil]
    | cons b bs' =>
      rw [utf8Decode_cons]
      intro hmem
      rcases List.mem_cons.mp hmem with heq | htail
      · exact decodeRune_fst_ne_nul b bs'
          (h b (List.mem_cons_self b bs')) heq.symm
      · have hlen : (bs'.drop (decodeRune b bs').2).length < n := by
          simp only [List.length_drop]
          simp only [List.length_cons] at hn
          omega
        exact ih _ hlen _
          (fun x hx => h x (List.mem_cons_of_mem _ (List.mem_of_mem_drop hx)))
          rfl htail

theorem utf8Encode_replicate (n : Nat) (c : Char) (h : c.toNat < 128) :
    utf8Encode (List.replicate n c) = List.replicate n c.toNat := by
  induction n with
  | zero => rfl
  | succ n ih =>
    have henc : utf8EncodeChar c = [c.toNat] := by simp [utf8EncodeChar, h]
    simp only [List.replicate_succ, utf8Encode, List.flatMap_cons] at ih ⊢
    rw [henc, ih]
    rfl

theorem encodeLx_eq (rp : ReparsePoint) :
    encodeLxReparsePoint rp = u32le reparseTagLxSymlink ++
      u16le (4 + (utf8Encode rp.target).length) ++ u16le 0 ++
      u32le lxSymlinkVersion ++ utf8Encode rp.target := rfl

/-- Decoding any LX-encoded value yields the UTF-8 decoding of the encoded
target truncated at its first NUL byte. -/
theorem decode_encodeLx (t : List Char) (mp : Bool) :
    DecodeReparsePoint (EncodeReparsePoint ⟨t, mp, true⟩) =
      .ok ⟨utf8Decode (takeUntilNul (utf8Encode t)), false, true⟩ := by
  have henc : EncodeReparsePoint ⟨t, mp, true⟩ =
      (u32le reparseTagLxSymlink ++ u16le (4 + (utf8Encode t).length) ++
        u16le 0) ++ (u32le lxSymlinkVersion ++ utf8Encode t) := by
    show encodeLxReparsePoint _ = _
    rw [encodeLx_eq]
    simp [List.append_assoc]
  rw [henc]
  have hlen8 : (u32le reparseTagLxSymlink ++ u16le (4 + (utf8Encode t).length) ++
      u16le 0).length = 8 := by
    simp [u32le_length, u16le_length]
  unfold DecodeReparsePoint
  rw [if_neg (by simp [hlen8, u32le_length]; omega)]
  rw [List.drop_left' hlen8]
  have htag : readU32 ((u32le reparseTagLxSymlink ++
      u16le (4 + (utf8Encode t).length) ++ u16le 0) ++
      (u32le lxSymlinkVersion ++ utf8Encode t)) 0 = reparseTagLxSymlink := by
    rw [List.append_assoc, List.append_assoc, readU32_u32le]
    decide
  rw [htag]
  have hne1 : reparseTagLxSymlink ≠ reparseTagMountPoint := by decide
  have hne2 : reparseTagLxSymlink ≠ reparseTagSymlink := by decide
  unfold DecodeReparsePointData
  rw [if_neg hne1, if_neg hne2, if_pos rfl]
  unfold decodeLxReparsePointData
  rw [if_neg (by simp [u32le_length])]
  rw [List.drop_left' (u32le_length lxSymlinkVersion)]

/-- C3: for every `ReparsePoint` with `isAlternateSymlink = true` and a
NUL-free target, decoding the encoding succeeds and returns the same target
with `isMountPoint = false` and `isAlternateSymlink = true`. -/
theorem c3_lx_roundtrip (t : List Char) (h : ∀ c ∈ t, c ≠ '\x00') :
    DecodeReparsePoint (EncodeReparsePoint ⟨t, false, true⟩) =
      .ok ⟨t, false, true⟩ := by
  rw [decode_encodeLx]
  rw [takeUntilNul_eq_self _ (utf8Encode_ne_zero t h), utf8Decode_encode]

theorem c3_lx_roundtrip_witness :
    DecodeReparsePoint (EncodeReparsePoint
      ⟨"/path/with spaces/and-special!@#$%/файл.txt".data, false, true⟩) =
      .ok ⟨"/path/with spaces/and-special!@#$%/файл.txt".data, false, true⟩ :=
  c3_lx_roundtrip "/path/with spaces/and-special!@#$%/файл.txt".data
    (by decide)

/-- C9: a buffer carrying the LX tag fails with the buffer-too-short error
exactly when its payload is shorter than 4 bytes, and succeeds otherwise. -/
theorem c9_lx_too_short (b : List Nat) :
    (DecodeReparsePointData reparseTagLxSymlink b = .error .lxBufferTooShort ↔
      b.length < 4) ∧
    (4 ≤ b.length →
      ∃ rp, DecodeReparsePointData reparseTagLxSymlink b = .ok rp) := by
  unfold DecodeReparsePointData
  rw [if_neg (by decide), if_neg (by decide), if_pos rfl]
  unfold decodeLxReparsePointData
  by_cases h : b.length < 4
  · rw [if_pos h]
    exact ⟨by simp [h], fun h4 => absurd h (by omega)⟩
  · rw [if_neg h]
    exact ⟨by simp [h], fun _ => ⟨_, rfl⟩⟩

theorem c9_lx_too_short_witness :
    ∃ rp, DecodeReparsePointData reparseTagLxSymlink [2, 0, 0, 0] = .ok rp :=
  (c9_lx_too_short [2, 0, 0, 0]).2 (by decide)

theorem lx_truncate_at_nul (t : List Char) (h : '\x00' ∈ t) :
    utf8Decode (takeUntilNul (utf8Encode t)) =
      t.takeWhile (fun c => c ≠ '\x00') := by
  induction t with
  | nil => cases h
  | cons c t' ih =>
    by_cases hc : c = '\x00'
    · subst hc
      have : utf8Encode ('\x00' :: t') = 0 :: utf8Encode t' := by
        simp [utf8Encode, utf8EncodeChar]
      rw [this, takeUntilNul_cons_nul]
      simp [utf8Decode_nil, List.takeWhile_cons]
    · have hmem : '\x00' ∈ t' := by
        rcases List.mem_cons.mp h with h' | h'
        · exact absurd h'.symm hc
        · exact h'
      have : utf8Encode (c :: t') = utf8EncodeChar c ++ utf8Encode t' := by
        simp [utf8Encode]
      rw [this, takeUntilNul_append_left _ _ (utf8EncodeChar_ne_zero c hc),
        utf8Decode_encodeChar, ih hmem]
      simp [List.takeWhile_cons, hc]

/-- C10: encoding an LX value whose target contains a NUL and decoding the
result succeeds but yields only the prefix before the first NUL (so such
targets do not round-trip), and a decoded LX target never contains a NUL. -/
theorem c10_lx_nul_truncation :
    (∀ (t : List Char) (mp : Bool), '\x00' ∈ t →
      DecodeReparsePoint (EncodeReparsePoint ⟨t, mp, true⟩) =
        .ok ⟨t.takeWhile (fun c => c ≠ '\x00'), false, true⟩ ∧
      t.takeWhile (fun c => c ≠ '\x00') ≠ t) ∧
    (∀ (b : List Nat) (rp : ReparsePoint),
      decodeLxReparsePointData b = .ok rp → '\x00' ∉ rp.target) := by
  constructor
  · intro t mp h
    refine ⟨by rw [decode_encodeLx, lx_truncate_at_nul t h], ?_⟩
    intro he
    have hmem : '\x00' ∈ t.takeWhile (fun c => c ≠ '\x00') := he.symm ▸ h
    have := List.mem_takeWhile_imp hmem
    simp at this
  · intro b rp hok
    unfold decodeLxReparsePointData at hok
    by_cases h : b.length < 4
    · rw [if_pos h] at hok
      cases hok
    · rw [if_neg h] at hok
      have htgt : rp.target = utf8Decode (takeUntilNul (b.drop 4)) := by
        cases hok
        rfl
      rw [htgt]
      exact utf8Decode_nul_free _ (fun x hx => mem_takeUntilNul_ne_zero _ x hx)

theorem c10_lx_nul_truncation_witness :
    DecodeReparsePoint (EncodeReparsePoint ⟨['a', '\x00', 'b'], false, true⟩) =
      .ok ⟨['a'], false, true⟩ ∧
    '\x00' ∉ (ReparsePoint.mk ['A'] false true).target := by
  constructor
  · have h := (c10_lx_nul_truncation.1 ['a', '\x00', 'b'] false (by decide)).1
    have e : (['a', '\x00', 'b'].takeWhile (fun c => c ≠ '\x00')) = ['a'] := by
      decide
    rw [e] at h
    exact h
  · exact c10_lx_nul_truncation.2 [2, 0, 0, 0, 65] ⟨['A'], false, true⟩
      (by decide)

/-- C8 counterexample: a 4-byte buffer whose tag (1) is unsupported does not
fail with the unsupported-reparse-point error — slicing `b[8:]` panics first
— so the claim fails as stated on this input. -/
theorem c8_counterexample :
    DecodeReparsePoint [1, 0, 0, 0] = .error .sliceOutOfRange ∧
    readU32 [1, 0, 0, 0] 0 = 1 ∧
    (DecodeError.sliceOutOfRange ≠ .unsupportedReparsePoint 1) := by
  refine ⟨?_, by decide, by decide⟩
  unfold DecodeReparsePoint
  rw [if_pos (by decide)]

/-- C8 (amended): for every buffer of at least 8 bytes whose first 4 bytes
are not a recognized tag, decode fails with the unsupported-reparse-point
error carrying that exact tag value. -/
theorem c8_unsupported_tag (b : List Nat) (h8 : 8 ≤ b.length)
    (h1 : readU32 b 0 ≠ reparseTagMountPoint)
    (h2 : readU32 b 0 ≠ reparseTagSymlink)
    (h3 : readU32 b 0 ≠ reparseTagLxSymlink) :
    DecodeReparsePoint b = .error (.unsupportedReparsePoint (readU32 b 0)) := by
  unfold DecodeReparsePoint
  rw [if_neg (by omega)]
  unfold DecodeReparsePointData
  rw [if_neg h1, if_neg h2, if_neg h3]

theorem c8_unsupported_tag_witness :
    DecodeReparsePoint [0, 0, 0, 0, 0, 0, 0, 0] =
      .error (.unsupportedReparsePoint (readU32 [0, 0, 0, 0, 0, 0, 0, 0] 0)) :=
  c8_unsupported_tag [0, 0, 0, 0, 0, 0, 0, 0] (by decide) (by decide)
    (by decide) (by decide)

theorem readU16_at (pre : List Nat) (x : Nat) (post : List Nat) (i : Nat)
    (h : pre.length = i) : readU16 (pre ++ (u16le x ++ post)) i = x % 65536 := by
  rw [readU16_append_right _ _ _ (le_of_eq h), h, Nat.sub_self, readU16_u16le]

theorem u16le_mod (x : Nat) : u16le (x % 65536) = u16le x := by
  have h1 : x % 65536 % 256 = x % 256 := by omega
  have h2 : x % 65536 / 256 % 256 = x / 256 % 256 := by omega
  simp [u16le, h1, h2]

/-- C2 counterexample: a mount-point payload whose substitute name is `"A"`
and whose print name is `"B"` decodes to target `"B"` — the print-name
fields, not the substitute-name fields, are the ones decode reads. -/
theorem c2_counterexample :
    decodeWindowsReparsePointData
      [0, 0, 2, 0, 2, 0, 2, 0, 65, 0, 66, 0] true =
      .ok ⟨['B'], true, false⟩ ∧
    specSubstituteName [0, 0, 2, 0, 2, 0, 2, 0, 65, 0, 66, 0] true = ['A'] ∧
    (['B'] : List Char) ≠ ['A'] := by
  decide

/-- C2 (amended): decode of a mount-point or standard-symlink payload returns
the UTF-16 text described by the print-name fields — the 2-byte offset at
payload bytes 4–5 and the 2-byte length at bytes 6–7 — located at the
16-bit-wrapped byte offset `8 + printNameOffset` (plus 4 more for a standard
symlink); the substitute-name fields at payload bytes 0–3 are never used. -/
theorem c2_print_name_decoded (b : List Nat) (mp : Bool) (rp : ReparsePoint)
    (hlen : readU16 b 6 < 65536)
    (h : decodeWindowsReparsePointData b mp = .ok rp) :
    rp.target = utf16Decode (bytesToU16 ((b.drop
      (((8 + readU16 b 4) % 65536 + (if mp then 0 else 4)) % 65536)).take
      (readU16 b 6))) := by
  unfold decodeWindowsReparsePointData at h
  by_cases h8 : b.length < 8
  · rw [if_pos h8] at h
    cases h
  · rw [if_neg h8] at h
    set off := ((8 + readU16 b 4) % 65536 + (if mp then 0 else 4)) % 65536
      with hoff
    set len := readU16 b 6 with hlen2
    set hi := (off + len) % 65536 with hhi
    by_cases hc : off ≤ hi ∧ hi ≤ b.length
    · rw [if_pos hc] at h
      have hofflt : off < 65536 := Nat.mod_lt _ (by omega)
      have hdiff : hi - off = len := by omega
      cases h
      show utf16Decode (bytesToU16 ((b.drop off).take (hi - off))) = _
      rw [hdiff]
    · rw [if_neg hc] at h
      cases h

theorem c2_print_name_decoded_witness :
    (ReparsePoint.mk ['B'] true false).target =
      utf16Decode (bytesToU16
        ((([0, 0, 2, 0, 2, 0, 2, 0, 65, 0, 66, 0] : List Nat).drop
          (((8 + readU16 [0, 0, 2, 0, 2, 0, 2, 0, 65, 0, 66, 0] 4) % 65536 +
            (if true then 0 else 4)) % 65536)).take
          (readU16 [0, 0, 2, 0, 2, 0, 2, 0, 65, 0, 66, 0] 6))) :=
  c2_print_name_decoded [0, 0, 2, 0, 2, 0, 2, 0, 65, 0, 66, 0] true
    ⟨['B'], true, false⟩ (by decide) (by decide)

/-- C7 counterexample: a 10-byte mount-point payload whose print-name fields
describe the byte range `[65538, 65540)` — far outside the buffer — still
decodes to a semantic value, because the offset computation wraps mod
`2^16` and lands back inside the buffer. -/
theorem c7_counterexample :
    decodeWindowsReparsePointData [0, 0, 0, 0, 250, 255, 2, 0, 0, 0] true =
      .ok ⟨['\x00'], true, false⟩ ∧
    ([0, 0, 0, 0, 250, 255, 2, 0, 0, 0] : List Nat).length <
      8 + readU16 [0, 0, 0, 0, 250, 255, 2, 0, 0, 0] 4 +
        readU16 [0, 0, 0, 0, 250, 255, 2, 0, 0, 0] 6 := by
  decide

/-- C7 (amended): decode of a mount-point or standard-symlink payload fails
with the out-of-range error exactly when the name range computed in 16-bit
wraparound arithmetic (offset `(8 + printNameOffset) mod 2^16`, plus 4 for a
symlink, again mod `2^16`; end `(offset + length) mod 2^16`) is not contained
in the buffer — including when the buffer cannot hold the 8 field bytes; a
described range whose 16-bit wrap lands back inside the buffer decodes
without error. -/
theorem c7_bounds_check (b : List Nat) (mp : Bool) :
    decodeWindowsReparsePointData b mp = .error .sliceOutOfRange ↔
      (b.length < 8 ∨
        ¬(((8 + readU16 b 4) % 65536 + (if mp then 0 else 4)) % 65536 ≤
            (((8 + readU16 b 4) % 65536 + (if mp then 0 else 4)) % 65536 +
              readU16 b 6) % 65536 ∧
          (((8 + readU16 b 4) % 65536 + (if mp then 0 else 4)) % 65536 +
            readU16 b 6) % 65536 ≤ b.length)) := by
  unfold decodeWindowsReparsePointData
  by_cases h8 : b.length < 8
  · rw [if_pos h8]
    simp [h8]
  · rw [if_neg h8]
    set off := ((8 + readU16 b 4) % 65536 + (if mp then 0 else 4)) % 65536
      with hoff
    set hi := (off + readU16 b 6) % 65536 with hhi
    by_cases hc : off ≤ hi ∧ hi ≤ b.length
    · rw [if_pos hc]
      simp [h8, hc]
    · rw [if_neg hc]
      simp [h8, hc]

/-- Layout of the standard-symlink / mount-point encoding. -/
theorem encodeWindows_eq (t : List Char) (mp : Bool) :
    EncodeReparsePoint ⟨t, mp, false⟩ =
      u32le (if mp then reparseTagMountPoint else reparseTagSymlink) ++
      u16le (8 + (nt16 t).length * 2 + (t16 t).length * 2 +
        (if mp then 0 else 4)) ++
      u16le 0 ++ u16le 0 ++ u16le (((nt16 t).length - 1) * 2) ++
      u16le ((nt16 t).length * 2) ++ u16le (((t16 t).length - 1) * 2) ++
      (if mp then [] else u32le (if (ntTargetRel t).2 then 1 else 0)) ++
      u16sToBytes (nt16 t) ++ u16sToBytes (t16 t) := by
  cases mp <;> rfl

/-- C5: the standard/mount-point encoder computes the NT target exactly as
the spec describes (long-path, UNC, drive, otherwise-verbatim cases); for a
standard symlink a 4-byte flags word follows the 16-byte header with bit 0
set exactly in the otherwise (relative) case, while a mount point has no
flags field and its name data starts directly at byte 16. -/
theorem c5_nt_rewriting (t : List Char) :
    ntTargetRel t = (specNtTarget t, specRelative t) ∧
    (EncodeReparsePoint ⟨t, false, false⟩).drop 20 =
      u16sToBytes (utf16Encode (specNtTarget t ++ ['\x00'])) ++
        u16sToBytes (utf16Encode (t ++ ['\x00'])) ∧
    ((EncodeReparsePoint ⟨t, false, false⟩).take 20).drop 16 =
      u32le (if specRelative t then 1 else 0) ∧
    (EncodeReparsePoint ⟨t, true, false⟩).drop 16 =
      u16sToBytes (utf16Encode (specNtTarget t ++ ['\x00'])) ++
        u16sToBytes (utf16Encode (t ++ ['\x00'])) := by
  have hnt : ntTargetRel t = (specNtTarget t, specRelative t) := by
    unfold ntTargetRel specNtTarget specRelative
    by_cases h1 : (['\\', '\\', '?', '\\']).isPrefixOf t
    · simp [h1]
    · by_cases h2 : (['\\', '\\']).isPrefixOf t
      · simp [h1, h2]
      · by_cases h3 : hasDriveStart t
        · simp [h1, h2, h3]
        · simp [h1, h2, h3]
  refine ⟨hnt, ?_, ?_, ?_⟩
  · have hbuf : EncodeReparsePoint ⟨t, false, false⟩ =
        (u32le reparseTagSymlink ++
          u16le (8 + (nt16 t).length * 2 + (t16 t).length * 2 + 4) ++
          u16le 0 ++ u16le 0 ++ u16le (((nt16 t).length - 1) * 2) ++
          u16le ((nt16 t).length * 2) ++ u16le (((t16 t).length - 1) * 2) ++
          u32le (if (ntTargetRel t).2 then 1 else 0)) ++
        (u16sToBytes (nt16 t) ++ u16sToBytes (t16 t)) := by
      rw [encodeWindows_eq]
      simp [List.append_assoc]
    rw [hbuf, List.drop_left' (by simp [u32le_length, u16le_length])]
    rw [show nt16 t = utf16Encode (specNtTarget t ++ ['\x00']) by
      rw [nt16, hnt]]
    rfl
  · have hbuf : EncodeReparsePoint ⟨t, false, false⟩ =
        ((u32le reparseTagSymlink ++
          u16le (8 + (nt16 t).length * 2 + (t16 t).length * 2 + 4) ++
          u16le 0 ++ u16le 0 ++ u16le (((nt16 t).length - 1) * 2) ++
          u16le ((nt16 t).length * 2) ++ u16le (((t16 t).length - 1) * 2)) ++
          u32le (if (ntTargetRel t).2 then 1 else 0)) ++
        (u16sToBytes (nt16 t) ++ u16sToBytes (t16 t)) := by
      rw [encodeWindows_eq]
      simp [List.append_assoc]
    rw [hbuf, List.take_left' (by simp [u32le_length, u16le_length])]
    rw [List.drop_left' (by simp [u32le_length, u16le_length])]
    rw [hnt]
  · have hbuf : EncodeReparsePoint ⟨t, true, false⟩ =
        (u32le reparseTagMountPoint ++
          u16le (8 + (nt16 t).length * 2 + (t16 t).length * 2 + 0) ++
          u16le 0 ++ u16le 0 ++ u16le (((nt16 t).length - 1) * 2) ++
          u16le ((nt16 t).length * 2) ++ u16le (((t16 t).length - 1) * 2)) ++
        (u16sToBytes (nt16 t) ++ u16sToBytes (t16 t)) := by
      rw [encodeWindows_eq]
      simp [List.append_assoc]
    rw [hbuf, List.drop_left' (by simp [u32le_length, u16le_length])]
    rw [show nt16 t = utf16Encode (specNtTarget t ++ ['\x00']) by
      rw [nt16, hnt]]
    rfl

theorem ntTargetRel_ascii2 (rest : List Char) :
    ntTargetRel ('a' :: 'a' :: rest) = ('a' :: 'a' :: rest, true) := by
  have h1 : (['\\', '\\', '?', '\\']).isPrefixOf ('a' :: 'a' :: rest) = false :=
    rfl
  have h2 : (['\\', '\\']).isPrefixOf ('a' :: 'a' :: rest) = false := rfl
  have h3 : hasDriveStart ('a' :: 'a' :: rest) = false := rfl
  unfold ntTargetRel
  simp [h1, h2, h3]

theorem replicate_a_expand :
    List.replicate 32768 'a' = 'a' :: 'a' :: List.replicate 32766 'a' := by
  rw [show (32768 : Nat) = 32767 + 1 from rfl, List.replicate_succ,
    show (32767 : Nat) = 32766 + 1 from rfl, List.replicate_succ]

theorem nt16_replicate_length :
    (nt16 (List.replicate 32768 'a')).length = 32769 := by
  rw [nt16, replicate_a_expand, ntTargetRel_ascii2, ← replicate_a_expand]
  rw [utf16Encode_length_bmp]
  · rw [List.length_append, List.length_replicate]
    rfl
  · intro c hc
    rcases List.mem_append.mp hc with h | h
    · rw [List.eq_of_mem_replicate h]
      decide
    · rw [List.mem_singleton.mp h]
      decide

theorem t16_replicate_length :
    (t16 (List.replicate 32768 'a')).length = 32769 := by
  rw [t16, utf16Encode_length_bmp]
  · rw [List.length_append, List.length_replicate]
    rfl
  · intro c hc
    rcases List.mem_append.mp hc with h | h
    · rw [List.eq_of_mem_replicate h]
      decide
    · rw [List.mem_singleton.mp h]
      decide

theorem encodeWindows_fields (t : List Char) (mp : Bool) :
    readU16 (EncodeReparsePoint ⟨t, mp, false⟩) 8 = 0 ∧
    readU16 (EncodeReparsePoint ⟨t, mp, false⟩) 10 =
      ((nt16 t).length - 1) * 2 % 65536 ∧
    readU16 (EncodeReparsePoint ⟨t, mp, false⟩) 12 =
      (nt16 t).length * 2 % 65536 ∧
    readU16 (EncodeReparsePoint ⟨t, mp, false⟩) 14 =
      ((t16 t).length - 1) * 2 % 65536 := by
  refine ⟨?_, ?_, ?_, ?_⟩
  · have hbuf : EncodeReparsePoint ⟨t, mp, false⟩ =
        (u32le (if mp then reparseTagMountPoint else reparseTagSymlink) ++
          u16le (8 + (nt16 t).length * 2 + (t16 t).length * 2 +
            (if mp then 0 else 4)) ++ u16le 0) ++
        (u16le 0 ++ (u16le (((nt16 t).length - 1) * 2) ++
          (u16le ((nt16 t).length * 2) ++ (u16le (((t16 t).length - 1) * 2) ++
          ((if mp then [] else u32le (if (ntTargetRel t).2 then 1 else 0)) ++
          (u16sToBytes (nt16 t) ++ u16sToBytes (t16 t))))))) := by
      rw [encodeWindows_eq]
      simp [List.append_assoc]
    rw [hbuf, readU16_at _ _ _ _ (by simp [u32le_length, u16le_length])]
  · have hbuf : EncodeReparsePoint ⟨t, mp, false⟩ =
        (u32le (if mp then reparseTagMountPoint else reparseTagSymlink) ++
          u16le (8 + (nt16 t).length * 2 + (t16 t).length * 2 +
            (if mp then 0 else 4)) ++ u16le 0 ++ u16le 0) ++
        (u16le (((nt16 t).length - 1) * 2) ++
          (u16le ((nt16 t).length * 2) ++ (u16le (((t16 t).length - 1) * 2) ++
          ((if mp then [] else u32le (if (ntTargetRel t).2 then 1 else 0)) ++
          (u16sToBytes (nt16 t) ++ u16sToBytes (t16 t)))))) := by
      rw [encodeWindows_eq]
      simp [List.append_assoc]
    rw [hbuf, readU16_at _ _ _ _ (by simp [u32le_length, u16le_length])]
  · have hbuf : EncodeReparsePoint ⟨t, mp, false⟩ =
        (u32le (if mp then reparseTagMountPoint else reparseTagSymlink) ++
          u16le (8 + (nt16 t).length * 2 + (t16 t).length * 2 +
            (if mp then 0 else 4)) ++ u16le 0 ++ u16le 0 ++
          u16le (((nt16 t).length - 1) * 2)) ++
        (u16le ((nt16 t).length * 2) ++ (u16le (((t16 t).length - 1) * 2) ++
          ((if mp then [] else u32le (if (ntTargetRel t).2 then 1 else 0)) ++
          (u16sToBytes (nt16 t) ++ u16sToBytes (t16 t))))) := by
      rw [encodeWindows_eq]
      simp [List.append_assoc]
    rw [hbuf, readU16_at _ _ _ _ (by simp [u32le_length, u16le_length])]
  · have hbuf : EncodeReparsePoint ⟨t, mp, false⟩ =
        (u32le (if mp then reparseTagMountPoint else reparseTagSymlink) ++
          u16le (8 + (nt16 t).length * 2 + (t16 t).length * 2 +
            (if mp then 0 else 4)) ++ u16le 0 ++ u16le 0 ++
          u16le (((nt16 t).length - 1) * 2) ++ u16le ((nt16 t).length * 2)) ++
        (u16le (((t16 t).length - 1) * 2) ++
          ((if mp then [] else u32le (if (ntTargetRel t).2 then 1 else 0)) ++
          (u16sToBytes (nt16 t) ++ u16sToBytes (t16 t)))) := by
      rw [encodeWindows_eq]
      simp [List.append_assoc]
    rw [hbuf, readU16_at _ _ _ _ (by simp [u32le_length, u16le_length])]

theorem encodeWindows_names (t : List Char) (mp : Bool) :
    (EncodeReparsePoint ⟨t, mp, false⟩).drop (if mp then 16 else 20) =
      u16sToBytes (nt16 t) ++ u16sToBytes (t16 t) := by
  cases mp
  · have hbuf : EncodeReparsePoint ⟨t, false, false⟩ =
        (u32le reparseTagSymlink ++
          u16le (8 + (nt16 t).length * 2 + (t16 t).length * 2 + 4) ++
          u16le 0 ++ u16le 0 ++ u16le (((nt16 t).length - 1) * 2) ++
          u16le ((nt16 t).length * 2) ++ u16le (((t16 t).length - 1) * 2) ++
          u32le (if (ntTargetRel t).2 then 1 else 0)) ++
        (u16sToBytes (nt16 t) ++ u16sToBytes (t16 t)) := by
      rw [encodeWindows_eq]
      simp [List.append_assoc]
    rw [hbuf]
    exact List.drop_left' (by simp [u32le_length, u16le_length])
  · have hbuf : EncodeReparsePoint ⟨t, true, false⟩ =
        (u32le reparseTagMountPoint ++
          u16le (8 + (nt16 t).length * 2 + (t16 t).length * 2 + 0) ++
          u16le 0 ++ u16le 0 ++ u16le (((nt16 t).length - 1) * 2) ++
          u16le ((nt16 t).length * 2) ++ u16le (((t16 t).length - 1) * 2)) ++
        (u16sToBytes (nt16 t) ++ u16sToBytes (t16 t)) := by
      rw [encodeWindows_eq]
      simp [List.append_assoc]
    rw [hbuf]
    exact List.drop_left' (by simp [u32le_length, u16le_length])

/-- C4 counterexample: for a 32768-character relative target the NT target
has 32769 UTF-16 units including the NUL, so `(n − 1) × 2 = 65536`, but the
16-bit substitute-name-length field of the encoding holds 0. -/
theorem c4_counterexample :
    readU16 (EncodeReparsePoint
      ⟨List.replicate 32768 'a', true, false⟩) 10 = 0 ∧
    ((nt16 (List.replicate 32768 'a')).length - 1) * 2 = 65536 := by
  constructor
  · have h := (encodeWindows_fields (List.replicate 32768 'a') true).2.1
    rw [nt16_replicate_length] at h
    rw [h]
  · rw [nt16_replicate_length]

/-- C4 (amended): the four 16-bit name fields of a standard/mount-point
encoding hold the claimed values reduced mod `2^16` (substitute offset 0,
substitute length `(n−1)×2`, print offset `n×2`, print length `(m−1)×2`, for
`n`/`m` the UTF-16 unit counts of NT/original target including the appended
NUL), and both UTF-16 strings are physically present, each with its trailing
NUL, the NT target immediately followed by the original target. -/
theorem c4_header_fields (t : List Char) (mp : Bool) :
    readU16 (EncodeReparsePoint ⟨t, mp, false⟩) 8 = 0 ∧
    readU16 (EncodeReparsePoint ⟨t, mp, false⟩) 10 =
      ((nt16 t).length - 1) * 2 % 65536 ∧
    readU16 (EncodeReparsePoint ⟨t, mp, false⟩) 12 =
      (nt16 t).length * 2 % 65536 ∧
    readU16 (EncodeReparsePoint ⟨t, mp, false⟩) 14 =
      ((t16 t).length - 1) * 2 % 65536 ∧
    (EncodeReparsePoint ⟨t, mp, false⟩).drop (if mp then 16 else 20) =
      u16sToBytes (utf16Encode ((ntTargetRel t).1 ++ ['\x00'])) ++
        u16sToBytes (utf16Encode (t ++ ['\x00'])) := by
  obtain ⟨f1, f2, f3, f4⟩ := encodeWindows_fields t mp
  exact ⟨f1, f2, f3, f4, encodeWindows_names t mp⟩

theorem encodeLx_dataLength_field (t : List Char) (mp : Bool) :
    readU16 (EncodeReparsePoint ⟨t, mp, true⟩) 4 =
      (4 + (utf8Encode t).length) % 65536 := by
  have hbuf : EncodeReparsePoint ⟨t, mp, true⟩ =
      u32le reparseTagLxSymlink ++ (u16le (4 + (utf8Encode t).length) ++
        (u16le 0 ++ (u32le lxSymlinkVersion ++ utf8Encode t))) := by
    show encodeLxReparsePoint _ = _
    rw [encodeLx_eq]
    simp [List.append_assoc]
  rw [hbuf, readU16_at _ _ _ _ (u32le_length _)]

theorem encodeLx_layout_mod (t : List Char) (mp : Bool) :
    EncodeReparsePoint ⟨t, mp, true⟩ =
      u32le 0xA000001D ++ u16le ((4 + (utf8Encode t).length) % 65536) ++
        u16le 0 ++ u32le 2 ++ utf8Encode t := by
  show encodeLxReparsePoint _ = _
  have h1 : reparseTagLxSymlink = 0xA000001D := rfl
  have h2 : lxSymlinkVersion = 2 := rfl
  rw [encodeLx_eq, u16le_mod, h1, h2]

/-- C6 counterexample: for a 65532-byte UTF-8 target the declared data
length `4 + 65532 = 65536` does not fit the 16-bit field, which holds 0. -/
theorem c6_counterexample :
    readU16 (EncodeReparsePoint
      ⟨List.replicate 65532 'a', false, true⟩) 4 = 0 ∧
    4 + (utf8Encode (List.replicate 65532 'a')).length = 65536 := by
  have he : utf8Encode (List.replicate 65532 'a') = List.replicate 65532 97 :=
    utf8Encode_replicate 65532 'a' (by decide)
  have hlen : (utf8Encode (List.replicate 65532 'a')).length = 65532 := by
    rw [he, List.length_replicate]
  constructor
  · rw [encodeLx_dataLength_field, hlen]
  · rw [hlen]

/-- C6 (amended): the alternate-format encoding is exactly tag `0xA000001D`,
a 2-byte data length holding `(4 + UTF-8 byte length) mod 2^16`, two zero
reserved bytes, the 4-byte version constant 2, then the raw UTF-8 target
bytes with no terminator and no padding. -/
theorem c6_lx_layout (t : List Char) (mp : Bool) :
    EncodeReparsePoint ⟨t, mp, true⟩ =
      u32le 0xA000001D ++ u16le ((4 + (utf8Encode t).length) % 65536) ++
        u16le 0 ++ u32le 2 ++ utf8Encode t ∧
    readU16 (EncodeReparsePoint ⟨t, mp, true⟩) 4 =
      (4 + (utf8Encode t).length) % 65536 :=
  ⟨encodeLx_layout_mod t mp, encodeLx_dataLength_field t mp⟩

/-- Successful path of the mount-point / symlink decoder: when the offset
computation yields `off` with no 16-bit wrap and the range fits the buffer,
decode returns the UTF-16 text of the `len` bytes at `off`. -/
theorem decodeWindows_ok (b : List Nat) (mp : Bool) (off len : Nat)
    (tgt : List Char)
    (hoff : ((8 + readU16 b 4) % 65536 + (if mp then 0 else 4)) % 65536 = off)
    (hlen : readU16 b 6 = len)
    (h8 : 8 ≤ b.length)
    (hno : off + len < 65536)
    (hle : off + len ≤ b.length)
    (htgt : utf16Decode (bytesToU16 ((b.drop off).take len)) = tgt) :
    decodeWindowsReparsePointData b mp = .ok ⟨tgt, mp, false⟩ := by
  simp only [decodeWindowsReparsePointData]
  rw [hoff, hlen, if_neg (by omega), Nat.mod_eq_of_lt hno,
    if_pos ⟨Nat.le_add_right off len, hle⟩,
    show off + len - off = len from by omega, htgt]

theorem t16_split (t : List Char) : t16 t = utf16Encode t ++ [0] := by
  rw [t16, utf16Encode_append]
  rfl

theorem nt16_split (t : List Char) :
    nt16 t = utf16Encode (ntTargetRel t).1 ++ [0] := by
  rw [nt16, utf16Encode_append]
  rfl

theorem t16_length (t : List Char) :
    (t16 t).length = (utf16Encode t).length + 1 := by
  rw [t16_split, List.length_append]
  rfl

theorem nt16_length (t : List Char) :
    (nt16 t).length = (utf16Encode (ntTargetRel t).1).length + 1 := by
  rw [nt16_split, List.length_append]
  rfl

theorem u16sToBytes_t16_take (t : List Char) :
    (u16sToBytes (t16 t)).take (((t16 t).length - 1) * 2) =
      u16sToBytes (utf16Encode t) := by
  have hsplit : u16sToBytes (t16 t) =
      u16sToBytes (utf16Encode t) ++ [0, 0] := by
    rw [t16_split, u16sToBytes_append]
    rfl
  rw [hsplit]
  exact List.take_left' (by rw [u16sToBytes_length, t16_length]; omega)

theorem slice_decodes_to_target (t : List Char) :
    utf16Decode (bytesToU16
      ((u16sToBytes (t16 t)).take (((t16 t).length - 1) * 2))) = t := by
  rw [u16sToBytes_t16_take, bytesToU16_u16sToBytes _ (utf16Encode_lt t),
    utf16Decode_encode]

/-- C1 (amended): decoding the encoding of any non-LX value returns the
value unchanged, provided the two UTF-16 names (each including its NUL
terminator) total at most 32762 units, so that no 16-bit header field
wraps. -/
theorem c1_roundtrip_bounded (t : List Char) (mp : Bool)
    (h : (nt16 t).length + (t16 t).length ≤ 32762) :
    DecodeReparsePoint (EncodeReparsePoint ⟨t, mp, false⟩) =
      .ok ⟨t, mp, false⟩ := by
  have hm1 := t16_length t
  have hn1 := nt16_length t
  cases mp
  · have hbuf : EncodeReparsePoint ⟨t, false, false⟩ =
        (u32le reparseTagSymlink ++
          u16le (8 + (nt16 t).length * 2 + (t16 t).length * 2 + 4) ++
          u16le 0) ++
        (u16le 0 ++ (u16le (((nt16 t).length - 1) * 2) ++
          (u16le ((nt16 t).length * 2) ++ (u16le (((t16 t).length - 1) * 2) ++
          (u32le (if (ntTargetRel t).2 then 1 else 0) ++
            (u16sToBytes (nt16 t) ++ u16sToBytes (t16 t))))))) := by
      rw [encodeWindows_eq]
      simp [List.append_assoc]
    set P := u16le 0 ++ (u16le (((nt16 t).length - 1) * 2) ++
      (u16le ((nt16 t).length * 2) ++ (u16le (((t16 t).length - 1) * 2) ++
      (u32le (if (ntTargetRel t).2 then 1 else 0) ++
        (u16sToBytes (nt16 t) ++ u16sToBytes (t16 t)))))) with hP
    have hPlen : P.length =
        12 + 2 * (nt16 t).length + 2 * (t16 t).length := by
      rw [hP]
      simp only [List.length_append, u16le_length, u32le_length,
        u16sToBytes_length]
      omega
    have hH8 : (u32le reparseTagSymlink ++
        u16le (8 + (nt16 t).length * 2 + (t16 t).length * 2 + 4) ++
        u16le 0).length = 8 := by
      simp [u32le_length, u16le_length]
    rw [hbuf]
    unfold DecodeReparsePoint
    rw [if_neg (by rw [List.length_append, hH8]; omega)]
    rw [List.drop_left' hH8]
    have htag : readU32 ((u32le reparseTagSymlink ++
        u16le (8 + (nt16 t).length * 2 + (t16 t).length * 2 + 4) ++
        u16le 0) ++ P) 0 = reparseTagSymlink := by
      rw [List.append_assoc, List.append_assoc, readU32_u32le]
      decide
    rw [htag]
    unfold DecodeReparsePointData
    rw [if_neg (by decide), if_pos rfl]
    have hr4 : readU16 P 4 = (nt16 t).length * 2 % 65536 := by
      rw [show P = (u16le 0 ++ u16le (((nt16 t).length - 1) * 2)) ++
          (u16le ((nt16 t).length * 2) ++
            (u16le (((t16 t).length - 1) * 2) ++
            (u32le (if (ntTargetRel t).2 then 1 else 0) ++
              (u16sToBytes (nt16 t) ++ u16sToBytes (t16 t))))) from by
        rw [hP]; simp [List.append_assoc]]
      exact readU16_at _ _ _ _ (by simp [u16le_length])
    have hr4' : readU16 P 4 = (nt16 t).length * 2 := by
      rw [hr4]
      omega
    have hr6 : readU16 P 6 = ((t16 t).length - 1) * 2 % 65536 := by
      rw [show P = (u16le 0 ++ u16le (((nt16 t).length - 1) * 2) ++
          u16le ((nt16 t).length * 2)) ++
          (u16le (((t16 t).length - 1) * 2) ++
            (u32le (if (ntTargetRel t).2 then 1 else 0) ++
            (u16sToBytes (nt16 t) ++ u16sToBytes (t16 t)))) from by
        rw [hP]; simp [List.append_assoc]]
      exact readU16_at _ _ _ _ (by simp [u16le_length])
    have hr6' : readU16 P 6 = ((t16 t).length - 1) * 2 := by
      rw [hr6]
      omega
    have hdrop : P.drop (12 + (nt16 t).length * 2) = u16sToBytes (t16 t) := by
      rw [show P = (u16le 0 ++ u16le (((nt16 t).length - 1) * 2) ++
          u16le ((nt16 t).length * 2) ++ u16le (((t16 t).length - 1) * 2) ++
          u32le (if (ntTargetRel t).2 then 1 else 0) ++
          u16sToBytes (nt16 t)) ++ u16sToBytes (t16 t) from by
        rw [hP]; simp [List.append_assoc]]
      exact List.drop_left' (by
        simp only [List.length_append, u16le_length, u32le_length,
          u16sToBytes_length]
        omega)
    exact decodeWindows_ok P false (12 + (nt16 t).length * 2)
      (((t16 t).length - 1) * 2) t
      (by
        show ((8 + readU16 P 4) % 65536 + 4) % 65536 =
          12 + (nt16 t).length * 2
        rw [hr4']
        omega)
      hr6'
      (by omega)
      (by omega)
      (by omega)
      (by rw [hdrop]; exact slice_decodes_to_target t)
  · have hbuf : EncodeReparsePoint ⟨t, true, false⟩ =
        (u32le reparseTagMountPoint ++
          u16le (8 + (nt16 t).length * 2 + (t16 t).length * 2) ++
          u16le 0) ++
        (u16le 0 ++ (u16le (((nt16 t).length - 1) * 2) ++
          (u16le ((nt16 t).length * 2) ++ (u16le (((t16 t).length - 1) * 2) ++
          (u16sToBytes (nt16 t) ++ u16sToBytes (t16 t)))))) := by
      rw [encodeWindows_eq]
      simp [List.append_assoc]
    set P := u16le 0 ++ (u16le (((nt16 t).length - 1) * 2) ++
      (u16le ((nt16 t).length * 2) ++ (u16le (((t16 t).length - 1) * 2) ++
      (u16sToBytes (nt16 t) ++ u16sToBytes (t16 t))))) with hP
    have hPlen : P.length =
        8 + 2 * (nt16 t).length + 2 * (t16 t).length := by
      rw [hP]
      simp only [List.length_append, u16le_length, u16sToBytes_length]
      omega
    have hH8 : (u32le reparseTagMountPoint ++
        u16le (8 + (nt16 t).length * 2 + (t16 t).length * 2) ++
        u16le 0).length = 8 := by
      simp [u32le_length, u16le_length]
    rw [hbuf]
    unfold DecodeReparsePoint
    rw [if_neg (by rw [List.length_append, hH8]; omega)]
    rw [List.drop_left' hH8]
    have htag : readU32 ((u32le reparseTagMountPoint ++
        u16le (8 + (nt16 t).length * 2 + (t16 t).length * 2) ++
        u16le 0) ++ P) 0 = reparseTagMountPoint := by
      rw [List.append_assoc, List.append_assoc, readU32_u32le]
      decide
    rw [htag]
    unfold DecodeReparsePointData
    rw [if_pos rfl]
    have hr4 : readU16 P 4 = (nt16 t).length * 2 % 65536 := by
      rw [show P = (u16le 0 ++ u16le (((nt16 t).length - 1) * 2)) ++
          (u16le ((nt16 t).length * 2) ++
            (u16le (((t16 t).length - 1) * 2) ++
            (u16sToBytes (nt16 t) ++ u16sToBytes (t16 t)))) from by
        rw [hP]; simp [List.append_assoc]]
      exact readU16_at _ _ _ _ (by simp [u16le_length])
    have hr4' : readU16 P 4 = (nt16 t).length * 2 := by
      rw [hr4]
      omega
    have hr6 : readU16 P 6 = ((t16 t).length - 1) * 2 % 65536 := by
      rw [show P = (u16le 0 ++ u16le (((nt16 t).length - 1) * 2) ++
          u16le ((nt16 t).length * 2)) ++
          (u16le (((t16 t).length - 1) * 2) ++
            (u16sToBytes (nt16 t) ++ u16sToBytes (t16 t))) from by
        rw [hP]; simp [List.append_assoc]]
      exact readU16_at _ _ _ _ (by simp [u16le_length])
    have hr6' : readU16 P 6 = ((t16 t).length - 1) * 2 := by
      rw [hr6]
      omega
    have hdrop : P.drop (8 + (nt16 t).length * 2) = u16sToBytes (t16 t) := by
      rw [show P = (u16le 0 ++ u16le (((nt16 t).length - 1) * 2) ++
          u16le ((nt16 t).length * 2) ++ u16le (((t16 t).length - 1) * 2) ++
          u16sToBytes (nt16 t)) ++ u16sToBytes (t16 t) from by
        rw [hP]; simp [List.append_assoc]]
      exact List.drop_left' (by
        simp only [List.length_append, u16le_length, u16sToBytes_length]
        omega)
    exact decodeWindows_ok P true (8 + (nt16 t).length * 2)
      (((t16 t).length - 1) * 2) t
      (by
        show ((8 + readU16 P 4) % 65536 + 0) % 65536 =
          8 + (nt16 t).length * 2
        rw [hr4']
        omega)
      hr6'
      (by omega)
      (by omega)
      (by omega)
      (by rw [hdrop]; exact slice_decodes_to_target t)

theorem c1_roundtrip_bounded_witness :
    DecodeReparsePoint (EncodeReparsePoint
      ⟨"C:\\Windows\\System32".data, false, false⟩) =
      .ok ⟨"C:\\Windows\\System32".data, false, false⟩ :=
  c1_roundtrip_bounded "C:\\Windows\\System32".data false (by decide)

theorem encodeWindows_eq_mp (t : List Char) :
    EncodeReparsePoint ⟨t, true, false⟩ =
      (u32le reparseTagMountPoint ++
        u16le (8 + (nt16 t).length * 2 + (t16 t).length * 2) ++ u16le 0) ++
      (u16le 0 ++ (u16le (((nt16 t).length - 1) * 2) ++
        (u16le ((nt16 t).length * 2) ++ (u16le (((t16 t).length - 1) * 2) ++
        (u16sToBytes (nt16 t) ++ u16sToBytes (t16 t)))))) := by
  rw [encodeWindows_eq]
  simp [List.append_assoc]

theorem header_mp_len (t : List Char) :
    (u32le reparseTagMountPoint ++
      u16le (8 + (nt16 t).length * 2 + (t16 t).length * 2) ++
      u16le 0).length = 8 := by
  simp [u32le_length, u16le_length]

theorem header_mp_tag (t : List Char) (P : List Nat) :
    readU32 ((u32le reparseTagMountPoint ++
      u16le (8 + (nt16 t).length * 2 + (t16 t).length * 2) ++
      u16le 0) ++ P) 0 = reparseTagMountPoint := by
  rw [List.append_assoc, List.append_assoc, readU32_u32le]
  decide

theorem payload_mp_len (t : List Char) :
    (u16le 0 ++ (u16le (((nt16 t).length - 1) * 2) ++
      (u16le ((nt16 t).length * 2) ++ (u16le (((t16 t).length - 1) * 2) ++
      (u16sToBytes (nt16 t) ++ u16sToBytes (t16 t)))))).length =
      8 + 2 * (nt16 t).length + 2 * (t16 t).length := by
  simp only [List.length_append, u16le_length, u16sToBytes_length]
  omega

theorem payload_mp_r4 (t : List Char) :
    readU16 (u16le 0 ++ (u16le (((nt16 t).length - 1) * 2) ++
      (u16le ((nt16 t).length * 2) ++ (u16le (((t16 t).length - 1) * 2) ++
      (u16sToBytes (nt16 t) ++ u16sToBytes (t16 t)))))) 4 =
      (nt16 t).length * 2 % 65536 := by
  rw [show u16le 0 ++ (u16le (((nt16 t).length - 1) * 2) ++
      (u16le ((nt16 t).length * 2) ++ (u16le (((t16 t).length - 1) * 2) ++
      (u16sToBytes (nt16 t) ++ u16sToBytes (t16 t))))) =
      (u16le 0 ++ u16le (((nt16 t).length - 1) * 2)) ++
      (u16le ((nt16 t).length * 2) ++ (u16le (((t16 t).length - 1) * 2) ++
        (u16sToBytes (nt16 t) ++ u16sToBytes (t16 t)))) from by
    simp [List.append_assoc]]
  exact readU16_at _ _ _ _ (by simp [u16le_length])

theorem payload_mp_r6 (t : List Char) :
    readU16 (u16le 0 ++ (u16le (((nt16 t).length - 1) * 2) ++
      (u16le ((nt16 t).length * 2) ++ (u16le (((t16 t).length - 1) * 2) ++
      (u16sToBytes (nt16 t) ++ u16sToBytes (t16 t)))))) 6 =
      ((t16 t).length - 1) * 2 % 65536 := by
  rw [show u16le 0 ++ (u16le (((nt16 t).length - 1) * 2) ++
      (u16le ((nt16 t).length * 2) ++ (u16le (((t16 t).length - 1) * 2) ++
      (u16sToBytes (nt16 t) ++ u16sToBytes (t16 t))))) =
      (u16le 0 ++ u16le (((nt16 t).length - 1) * 2) ++
        u16le ((nt16 t).length * 2)) ++
      (u16le (((t16 t).length - 1) * 2) ++
        (u16sToBytes (nt16 t) ++ u16sToBytes (t16 t))) from by
    simp [List.append_assoc]]
  exact readU16_at _ _ _ _ (by simp [u16le_length])

/-- C1 counterexample: a mount point whose 32768-character relative target
overflows the 16-bit print-name-length field round-trips to the empty
target, not to itself. -/
theorem c1_counterexample :
    DecodeReparsePoint (EncodeReparsePoint
      ⟨List.replicate 32768 'a', true, false⟩) = .ok ⟨[], true, false⟩ ∧
    (ReparsePoint.mk [] true false) ≠
      ⟨List.replicate 32768 'a', true, false⟩ := by
  constructor
  · have hn := nt16_replicate_length
    have hm := t16_replicate_length
    rw [encodeWindows_eq_mp]
    set P := u16le 0 ++
      (u16le (((nt16 (List.replicate 32768 'a')).length - 1) * 2) ++
      (u16le ((nt16 (List.replicate 32768 'a')).length * 2) ++
      (u16le (((t16 (List.replicate 32768 'a')).length - 1) * 2) ++
      (u16sToBytes (nt16 (List.replicate 32768 'a')) ++
        u16sToBytes (t16 (List.replicate 32768 'a')))))) with hP
    have hPlen : P.length = 131084 := by
      rw [hP, payload_mp_len, hn, hm]
    unfold DecodeReparsePoint
    rw [if_neg (by
      rw [List.length_append, header_mp_len, hPlen]
      omega)]
    rw [List.drop_left' (header_mp_len _), header_mp_tag]
    unfold DecodeReparsePointData
    rw [if_pos rfl]
    have h4 : readU16 P 4 = 2 := by
      rw [hP, payload_mp_r4, hn]
    have h6 : readU16 P 6 = 0 := by
      rw [hP, payload_mp_r6, hm]
    exact decodeWindows_ok P true 10 0 []
      (by rw [h4]; decide)
      h6
      (by rw [hPlen]; omega)
      (by omega)
      (by rw [hPlen]; omega)
      (by rw [List.take_zero]; rfl)
  · intro he
    have hl : ([] : List Char).length = (List.replicate 32768 'a').length :=
      congrArg (fun r : ReparsePoint => r.target.length) he
    rw [List.length_replicate, List.length_nil] at hl
    omega

end Winio

